import Mathlib

/-!
Verification of the kafka sarama producer (cdc/sink/mq/producer/kafka/kafka.go)
and the relay configuration (relay/config.go) of the tiflow repository.

The Go code is shallowly embedded: pure helpers become Lean functions, the
stateful producer becomes an explicit state record with a step function over
events, and fallible operations return `Except`.
-/

namespace Tiflow

/-! ## Errors

The distinguishable error identities used by the producer code
(`cerror.ErrKafkaBrokerConfigNotFound`, `cerror.ErrKafkaInvalidConfig`,
`strconv` parse failures, and arbitrary other errors from the admin client). -/

inductive KError where
  | brokerConfigNotFound
  | invalidConfig (configFrom : String)
  | parseErr (s : String)
  | other (n : Nat)
  deriving DecidableEq, Repr

/-! ## Admin client and metadata model

`kafka.TopicDetail` carries the partition count and the topic-level config
entries (a string-keyed map, embedded as an association list).  The admin
client (`kafka.ClusterAdminClient`) supplies `GetAllTopicsMeta` and
`GetBrokerConfig`; both may fail. -/

structure TopicDetail where
  NumPartitions : Int
  ConfigEntries : List (String × String)
  deriving DecidableEq, Repr

def lookupEntry (l : List (String × String)) (k : String) : Option String :=
  (l.find? (fun p => p.fst == k)).map Prod.snd

def lookupTopic (l : List (String × TopicDetail)) (k : String) : Option TopicDetail :=
  (l.find? (fun p => p.fst == k)).map Prod.snd

structure ClusterAdmin where
  topicsMeta : Except KError (List (String × TopicDetail))
  brokerConfig : String → Except KError String

/-- `kafka.MinInsyncReplicasConfigName` (constant from pkg/sink/kafka). -/
def MinInsyncReplicasConfigName : String := "min.insync.replicas"

/-- `kafka.TopicMaxMessageBytesConfigName` (constant from pkg/sink/kafka). -/
def TopicMaxMessageBytesConfigName : String := "max.message.bytes"

/-- `kafka.BrokerMessageMaxBytesConfigName` (constant from pkg/sink/kafka). -/
def BrokerMessageMaxBytesConfigName : String := "message.max.bytes"

/-- `defaultPartitionNum` (kafka.go line 39). -/
def defaultPartitionNum : Int := 3

/-- Value of one decimal digit character. -/
def charDigit (c : Char) : Option Nat :=
  if 48 ≤ c.toNat ∧ c.toNat ≤ 57 then some (c.toNat - 48) else none

def digitsVal : List Char → Nat → Option Nat
  | [], acc => some acc
  | c :: cs, acc =>
      match charDigit c with
      | some d => digitsVal cs (acc * 10 + d)
      | none => none

/-- A non-empty run of decimal digits, as a number. -/
def parseDigits (cs : List Char) : Option Nat :=
  match cs with
  | [] => none
  | _ => digitsVal cs 0

/-- `strconv.Atoi`: base-10 integer parse (optional sign, then digits) that
fails the whole operation on malformed input. -/
def parseAtoi (s : String) : Except KError Int :=
  let res : Option Int :=
    match s.data with
    | '+' :: cs => (parseDigits cs).map (fun n => (n : Int))
    | '-' :: cs => (parseDigits cs).map (fun n => -(n : Int))
    | cs => (parseDigits cs).map (fun n => (n : Int))
  match res with
  | some n => Except.ok n
  | none => Except.error (KError.parseErr s)

/-- `Options` (`kafka.Options`, the fields used by kafka.go). -/
structure Options where
  MaxMessageBytes : Int
  PartitionNum : Int
  ReplicationFactor : Int
  AutoCreate : Bool
  deriving DecidableEq, Repr

/-- Modelled from the spec: `Options.SetPartitionNum` lives in pkg/sink/kafka,
which is not among the provided sources.  Spec section 4.1 step 3: "Set
`options.partitionCount` to the topic's actual partition count, overriding any
user-specified value, because partition count cannot be retroactively changed
by the producer." -/
def Options.SetPartitionNum (o : Options) (realPartitionCount : Int) : Except KError Options :=
  Except.ok { o with PartitionNum := realPartitionCount }

/-- `getTopicConfig` (kafka.go lines 509-520): topic-level entry when present,
otherwise the broker-level config. -/
def getTopicConfig (admin : ClusterAdmin) (detail : TopicDetail)
    (topicConfigName brokerConfigName : String) : Except KError String :=
  match lookupEntry detail.ConfigEntries topicConfigName with
  | some a => Except.ok a
  | none => admin.brokerConfig brokerConfigName

/-- The closure `minInsyncReplicasConfigGetter` inside
`validateMinInsyncReplicas` (kafka.go lines 453-471).  The boolean records
whether the topic exists (it labels the config source in the error message). -/
def minInsyncGetter (admin : ClusterAdmin) (topics : List (String × TopicDetail))
    (topic : String) : Except KError (String × Bool) :=
  match lookupTopic topics topic with
  | some info =>
      match getTopicConfig admin info MinInsyncReplicasConfigName MinInsyncReplicasConfigName with
      | Except.error e => Except.error e
      | Except.ok v => Except.ok (v, true)
  | none =>
      match admin.brokerConfig MinInsyncReplicasConfigName with
      | Except.error e => Except.error e
      | Except.ok v => Except.ok (v, false)

/-- `validateMinInsyncReplicas` (kafka.go lines 449-504). -/
def validateMinInsyncReplicas (admin : ClusterAdmin) (topics : List (String × TopicDetail))
    (topic : String) (replicationFactor : Int) : Except KError Unit :=
  match minInsyncGetter admin topics topic with
  | Except.error e =>
      -- 'min.insync.replica' is invisible to us in Confluent Cloud Kafka.
      if e = KError.brokerConfigNotFound then Except.ok () else Except.error e
  | Except.ok (minInsyncReplicasStr, existsTopic) =>
      match parseAtoi minInsyncReplicasStr with
      | Except.error e => Except.error e
      | Except.ok minInsyncReplicas =>
          let configFrom := if existsTopic then "topic" else "broker"
          if replicationFactor < minInsyncReplicas then
            Except.error (KError.invalidConfig configFrom)
          else
            Except.ok ()

/-- `AdjustOptions` (kafka.go lines 368-447).  The Go function mutates
`options` through a pointer; the embedding returns the adjusted record. -/
def AdjustOptions (admin : ClusterAdmin) (options : Options) (topic : String) :
    Except KError Options :=
  match admin.topicsMeta with
  | Except.error e => Except.error e
  | Except.ok topics =>
      match validateMinInsyncReplicas admin topics topic options.ReplicationFactor with
      | Except.error e => Except.error e
      | Except.ok _ =>
          match lookupTopic topics topic with
          | some info =>
              match getTopicConfig admin info TopicMaxMessageBytesConfigName
                  BrokerMessageMaxBytesConfigName with
              | Except.error e => Except.error e
              | Except.ok topicMaxMessageBytesStr =>
                  match parseAtoi topicMaxMessageBytesStr with
                  | Except.error e => Except.error e
                  | Except.ok topicMaxMessageBytes =>
                      let o1 :=
                        if topicMaxMessageBytes < options.MaxMessageBytes then
                          { options with MaxMessageBytes := topicMaxMessageBytes }
                        else options
                      o1.SetPartitionNum info.NumPartitions
          | none =>
              match admin.brokerConfig BrokerMessageMaxBytesConfigName with
              | Except.error e => Except.error e
              | Except.ok brokerMessageMaxBytesStr =>
                  match parseAtoi brokerMessageMaxBytesStr with
                  | Except.error e => Except.error e
                  | Except.ok brokerMessageMaxBytes =>
                      let o1 :=
                        if brokerMessageMaxBytes < options.MaxMessageBytes then
                          { options with MaxMessageBytes := brokerMessageMaxBytes }
                        else options
                      let o2 :=
                        if o1.PartitionNum = 0 then
                          { o1 with PartitionNum := defaultPartitionNum }
                        else o1
                      Except.ok o2

/-! ## Producer lifecycle state

`kafkaSaramaProducer` (kafka.go lines 47-76), together with ghost counters for
the environment: `incremented` counts every `inflight++`, `handedOff` counts
messages actually written to `asyncProducer.Input()`, `acked` counts
acknowledgments consumed by the `run` loop, `syncSends` counts calls of
`syncProducer.SendMessages`.  `flushWaiting` records that a `Flush` call has
registered and is blocked in its select. -/

structure PState where
  inflight : Int
  flushDone : Bool
  doneSig : Bool
  closing : Bool
  closeChClosed : Bool
  flushWaiting : Bool
  producersReleased : Bool
  releaseLog : List (String × Bool)
  incremented : Nat
  handedOff : Nat
  acked : Nat
  syncSends : Nat
  deriving DecidableEq, Repr

/-- The state right after `NewKafkaSaramaProducer` (kafka.go lines 339-350). -/
def initState : PState :=
  { inflight := 0, flushDone := false, doneSig := false, closing := false,
    closeChClosed := false, flushWaiting := false, producersReleased := false,
    releaseLog := [], incremented := 0, handedOff := 0, acked := 0, syncSends := 0 }

/-- Result of a producer operation, as far as the claims discriminate:
success (`nil`), a context-cancellation error, the flush-unfinished error, or
a wrapped transport error. -/
inductive KResult where
  | ok
  | ctxErr
  | errFlushUnfinished
  | sendErr
  deriving DecidableEq, Repr

/-- Which select case wins inside `AsyncSendMessage` (kafka.go lines 117-123). -/
inductive SendPick where
  | ctxDone
  | closeCh
  | handoff
  deriving DecidableEq, Repr

/-- A pick is available only if its channel is ready: `ctxDone` needs the
call's context to be done, `closeCh` needs the close channel to be closed;
the input-channel handoff is always eventually available. -/
def sendPickValid (s : PState) (ctxIsDone : Bool) : SendPick → Bool
  | SendPick.ctxDone => ctxIsDone
  | SendPick.closeCh => s.closeChClosed
  | SendPick.handoff => true

/-- `AsyncSendMessage` (kafka.go lines 85-125): if the closing flag is set it
returns nil at once; otherwise it increments `inflight` under the lock and
then races the handoff against the context and the close channel. -/
def asyncSendMessage (s : PState) (pick : SendPick) : PState × KResult :=
  if s.closing then (s, KResult.ok)
  else
    let s1 := { s with inflight := s.inflight + 1, incremented := s.incremented + 1 }
    match pick with
    | SendPick.ctxDone => (s1, KResult.ctxErr)
    | SendPick.closeCh => (s1, KResult.ok)
    | SendPick.handoff => ({ s1 with handedOff := s1.handedOff + 1 }, KResult.ok)

/-- Which select case wins inside `SyncBroadcastMessage`
(kafka.go lines 132-140); `dflt` is the default branch that performs the
synchronous send. -/
inductive SyncPick where
  | ctxDone
  | closeCh
  | dflt
  deriving DecidableEq, Repr

/-- Go select semantics for a select with a default branch: a ready case is
chosen (at random among the ready ones); the default runs only when no case
is ready. -/
def syncPickValid (s : PState) (ctxIsDone : Bool) : SyncPick → Bool
  | SyncPick.ctxDone => ctxIsDone
  | SyncPick.closeCh => s.closeChClosed
  | SyncPick.dflt => !ctxIsDone && !s.closeChClosed

/-- `SyncBroadcastMessage` (kafka.go lines 127-141).  `transportFails` tells
whether the underlying `syncProducer.SendMessages` returns an error. -/
def syncBroadcastMessage (s : PState) (pick : SyncPick) (transportFails : Bool) :
    PState × KResult :=
  match pick with
  | SyncPick.ctxDone => (s, KResult.ctxErr)
  | SyncPick.closeCh => (s, KResult.ok)
  | SyncPick.dflt =>
      ({ s with syncSends := s.syncSends + 1 },
       if transportFails then KResult.sendErr else KResult.ok)

/-- Outcome of the initial, locked section of `Flush`
(kafka.go lines 149-161): either the call returns nil immediately, or it has
registered `flushDone` and is about to block. -/
inductive FlushCheck where
  | immediate
  | registered
  deriving DecidableEq, Repr

/-- The locked section of `Flush` (kafka.go lines 149-161): reads `inflight`;
when zero, returns immediately without registering; otherwise installs the
fresh `done` channel as `k.mu.flushDone`. -/
def flushCheck (s : PState) : FlushCheck × PState :=
  if s.inflight = 0 then (FlushCheck.immediate, s)
  else (FlushCheck.registered,
        { s with flushDone := true, doneSig := false, flushWaiting := true })

/-- Which select case wakes a blocked `Flush` (kafka.go lines 164-171). -/
inductive FlushWake where
  | done
  | closeCh
  | ctxDone
  deriving DecidableEq, Repr

/-- The value a woken `Flush` returns (kafka.go lines 164-171): nil on the
done channel, `ErrKafkaFlushUnfinished` on the close channel, the context
error on cancellation. -/
def flushWakeResult : FlushWake → KResult
  | FlushWake.done => KResult.ok
  | FlushWake.closeCh => KResult.errFlushUnfinished
  | FlushWake.ctxDone => KResult.ctxErr

/-- The acknowledgment block of the `run` loop (kafka.go lines 295-303):
decrement `inflight`; when it reaches zero with a registered waiter, send on
the (buffered) done channel and clear the slot. -/
def ackConsume (s : PState) : PState :=
  let i := s.inflight - 1
  if i = 0 ∧ s.flushDone then
    { s with inflight := i, acked := s.acked + 1, flushDone := false, doneSig := true }
  else
    { s with inflight := i, acked := s.acked + 1 }

/-- `stop` (kafka.go lines 176-183): atomically swap the closing flag; only
the first caller closes `closeCh`. -/
def stop (s : PState) : PState :=
  if s.closing then s
  else { s with closing := true, closeChClosed := true }

def rClient : String := "client"

def rAsyncProducer : String := "asyncProducer"

def rSyncProducer : String := "syncProducer"

def rAdmin : String := "admin"

/-- The resource names released by `Close`, in source order. -/
def closeOrder : List String := [rClient, rAsyncProducer, rSyncProducer, rAdmin]

/-- `Close` (kafka.go lines 186-263): call `stop`, then under the exclusive
lock check-and-set `producersReleased`; on the first effective call release
client, async producer, sync producer and admin in that order, recording for
each whether its own `Close` errored (`errs`); always return nil. -/
def closeProducer (s : PState) (errs : String → Bool) : PState × KResult :=
  let s1 := stop s
  if s1.producersReleased then (s1, KResult.ok)
  else
    ({ s1 with producersReleased := true,
               releaseLog := s1.releaseLog ++ closeOrder.map (fun r => (r, errs r)) },
     KResult.ok)

/-! ## Event-level semantics

The events that can touch the producer state, with their enabling guards:
an `AsyncSendMessage` call (the winning pick recorded), the `run` loop
consuming one acknowledgment (only messages actually handed to the async
producer are ever acknowledged), a `Flush` call, a blocked `Flush` waking up,
and `stop`. -/

inductive PEvent where
  | sendE (pick : SendPick)
  | ackE
  | flushCallE
  | flushWakeE (w : FlushWake)
  | stopE
  deriving DecidableEq, Repr

def PEvent.isSend : PEvent → Bool
  | PEvent.sendE _ => true
  | _ => false

/-- One step of the producer: `none` when the event's guard is not enabled
in `s`. -/
def pstep (s : PState) : PEvent → Option PState
  | PEvent.sendE pick =>
      if pick = SendPick.closeCh ∧ ¬s.closeChClosed then none
      else some (asyncSendMessage s pick).fst
  | PEvent.ackE =>
      if s.acked < s.handedOff then some (ackConsume s) else none
  | PEvent.flushCallE =>
      if s.flushWaiting then none else some (flushCheck s).snd
  | PEvent.flushWakeE w =>
      if s.flushWaiting ∧
         (w = FlushWake.done → s.doneSig) ∧
         (w = FlushWake.closeCh → s.closeChClosed) then
        some { s with flushWaiting := false,
                      doneSig := if w = FlushWake.done then false else s.doneSig }
      else none
  | PEvent.stopE => some (stop s)

/-- Run a sequence of events from `s`; fails when any guard fails. -/
def prun (s : PState) : List PEvent → Option PState
  | [] => some s
  | e :: es =>
      match pstep s e with
      | some s1 => prun s1 es
      | none => none

/-- The documented caller-side serialization of Send and Flush
(kafka.go lines 80-84 and 143-147): no `AsyncSendMessage` call is issued
while a `Flush` call is blocked waiting. -/
def serialTrace (s : PState) : List PEvent → Bool
  | [] => true
  | e :: es =>
      (!(e.isSend && s.flushWaiting)) &&
      (match pstep s e with
       | some s1 => serialTrace s1 es
       | none => true)

/-- Number of acknowledgment events in a trace. -/
def countAck (es : List PEvent) : Nat := es.countP (fun e => e = PEvent.ackE)

/-! ## Relay configuration (relay/config.go)

`Config.String()` renders the configuration with `encoding/json.Marshal`.
The embedding reproduces Go's JSON encoding for these two structs: fields in
declaration order under their `json:"..."` tag names; the `Password` field
carries the tag `json:"-"` and is therefore omitted from the output. -/

def hexDigitChar (n : Nat) : Char :=
  if n < 10 then Char.ofNat (48 + n) else Char.ofNat (87 + n)

/-- Go `encoding/json` string escaping (with the default HTML escaping of
`<`, `>`, `&`). -/
def escapeChar (c : Char) : String :=
  if c = '"' then "\\\""
  else if c = '\\' then "\\\\"
  else if c = '\n' then "\\n"
  else if c = '\r' then "\\r"
  else if c = '\t' then "\\t"
  else if c = '<' then "\\u003c"
  else if c = '>' then "\\u003e"
  else if c = '&' then "\\u0026"
  else if c.toNat < 32 then
    "\\u00" ++ String.mk [hexDigitChar (c.toNat / 16), hexDigitChar (c.toNat % 16)]
  else String.singleton c

def escapeString (s : String) : String :=
  s.toList.foldl (fun acc c => acc ++ escapeChar c) ""

def jsonQuote (s : String) : String := "\"" ++ escapeString s ++ "\""

def jsonBool (b : Bool) : String := if b then "true" else "false"

/-- `DBConfig` (relay/config.go lines 23-28). -/
structure DBConfig where
  Host : String
  User : String
  Password : String
  Port : Int
  deriving DecidableEq, Repr

/-- JSON rendering of `DBConfig`: the `Password` field is tagged `json:"-"`
("omit it for privacy") and does not appear. -/
def DBConfig.marshal (c : DBConfig) : String :=
  "\x7b\"host\":" ++ jsonQuote c.Host ++
  ",\"user\":" ++ jsonQuote c.User ++
  ",\"port\":" ++ toString c.Port ++ "\x7d"

/-- `Config` (relay/config.go lines 10-20). -/
structure Config where
  EnableGTID : Bool
  AutoFixGTID : Bool
  MetaFile : String
  RelayDir : String
  ServerID : Int
  Flavor : String
  Charset : String
  VerifyChecksum : Bool
  From : DBConfig
  deriving DecidableEq, Repr

/-- `Config.String()` (relay/config.go lines 30-36): the JSON rendering of
the whole configuration. -/
def Config.render (c : Config) : String :=
  "\x7b\"enable-gtid\":" ++ jsonBool c.EnableGTID ++
  ",\"auto-fix-gtid\":" ++ jsonBool c.AutoFixGTID ++
  ",\"meta-file\":" ++ jsonQuote c.MetaFile ++
  ",\"relay-dir\":" ++ jsonQuote c.RelayDir ++
  ",\"server-id\":" ++ toString c.ServerID ++
  ",\"flavor\":" ++ jsonQuote c.Flavor ++
  ",\"charset\":" ++ jsonQuote c.Charset ++
  ",\"verify-checksum\":" ++ jsonBool c.VerifyChecksum ++
  ",\"data-source\":" ++ c.From.marshal ++ "\x7d"

/-! ## Theorems -/

/-- Claim C10: two relay `Config` values that agree on every field except the
data-source `Password` render to the same JSON string: the password neither
appears in nor influences `Config.String()`. -/
theorem c10_password_not_rendered (c : Config) (p : String) :
    Config.render { c with From := { c.From with Password := p } } = Config.render c := by
  simp [Config.render, DBConfig.marshal]

/-- A producer state in which `stop` has completed: the closing flag is set
and the close channel is closed. -/
def closedState : PState :=
  { initState with closing := true, closeChClosed := true }

/-- Claim C7 (amended): once the producer is Closing, `AsyncSendMessage`
returns nil with no state change (no handoff, no inflight bump) regardless of
the select pick, and `SyncBroadcastMessage` returns nil with no transport
attempt whenever the call's context is not already done; with a done context
it returns nil or the context error, still without a transport attempt. -/
theorem c7_closing_noop (s : PState)
    (h : s.closing = true ∧ s.closeChClosed = true) :
    (∀ pick, asyncSendMessage s pick = (s, KResult.ok)) ∧
    (∀ pick transportFails, syncPickValid s false pick = true →
        syncBroadcastMessage s pick transportFails = (s, KResult.ok)) ∧
    (∀ ctxIsDone pick transportFails, syncPickValid s ctxIsDone pick = true →
        ((syncBroadcastMessage s pick transportFails).snd = KResult.ok ∨
         (syncBroadcastMessage s pick transportFails).snd = KResult.ctxErr) ∧
        (syncBroadcastMessage s pick transportFails).fst = s) := by
  obtain ⟨hc, hcc⟩ := h
  refine ⟨?_, ?_, ?_⟩
  · intro pick
    simp [asyncSendMessage, hc]
  · intro pick transportFails hv
    cases pick <;> simp_all [syncPickValid, syncBroadcastMessage, hcc]
  · intro ctxIsDone pick transportFails hv
    cases pick <;> simp_all [syncPickValid, syncBroadcastMessage]

/-- Witness for C7: at the concrete post-stop state, an async send and a sync
broadcast are both silent successes. -/
theorem c7_closing_noop_witness :
    asyncSendMessage closedState SendPick.handoff = (closedState, KResult.ok) ∧
    syncBroadcastMessage closedState SyncPick.closeCh false = (closedState, KResult.ok) :=
  ⟨(c7_closing_noop closedState ⟨rfl, rfl⟩).1 SendPick.handoff,
   (c7_closing_noop closedState ⟨rfl, rfl⟩).2.1 SyncPick.closeCh false rfl⟩

/-- Counterexample to C7 as stated: after `stop` has run, a
`SyncBroadcastMessage` call whose context is already done can resolve its
select against the context case (both channels are ready, Go picks at
random) and then returns the context error, not nil. -/
theorem c7_ctx_done_counterexample :
    syncPickValid closedState true SyncPick.ctxDone = true ∧
    (syncBroadcastMessage closedState SyncPick.ctxDone false).snd ≠ KResult.ok := by
  decide

/-- Claim C6: `Flush` returns nil immediately, registering no waiter and
leaving the state untouched, exactly when `inflight` is 0 at the call;
otherwise it registers and blocks, and the shutdown wake-up is enabled
whenever the close channel is closed and yields `ErrKafkaFlushUnfinished`,
which is not nil. -/
theorem c6_flush_immediate_or_unfinished :
    (∀ s : PState, (flushCheck s).fst = FlushCheck.immediate ↔ s.inflight = 0) ∧
    (∀ s : PState, s.inflight = 0 → flushCheck s = (FlushCheck.immediate, s)) ∧
    (∀ s : PState, s.inflight ≠ 0 → (flushCheck s).snd.flushWaiting = true) ∧
    (∀ s : PState, s.flushWaiting = true → s.closeChClosed = true →
        pstep s (PEvent.flushWakeE FlushWake.closeCh) =
          some { s with flushWaiting := false }) ∧
    flushWakeResult FlushWake.closeCh = KResult.errFlushUnfinished ∧
    KResult.errFlushUnfinished ≠ KResult.ok := by
  refine ⟨?_, ?_, ?_, ?_, rfl, by decide⟩
  · intro s
    constructor
    · intro h
      by_contra hne
      simp [flushCheck, hne] at h
    · intro h
      simp [flushCheck, h]
  · intro s h
    simp [flushCheck, h]
  · intro s h
    simp [flushCheck, h]
  · intro s hw hc
    simp [pstep, hw, hc]

/-- Witness for C6: both readings at concrete states — from the initial
state `Flush` is immediate; from a waiting state with the close channel
closed the shutdown wake-up is enabled. -/
theorem c6_flush_witness :
    flushCheck initState = (FlushCheck.immediate, initState) ∧
    pstep { closedState with flushWaiting := true } (PEvent.flushWakeE FlushWake.closeCh) =
      some { closedState with flushWaiting := false } :=
  ⟨c6_flush_immediate_or_unfinished.2.1 initState rfl,
   c6_flush_immediate_or_unfinished.2.2.2.1 { closedState with flushWaiting := true } rfl rfl⟩

/-- Claim C9: from any state in which the producers have not yet been
released, `Close` returns nil whatever the per-resource close results are,
and appends exactly one release attempt per resource, in the fixed order
client, async producer, sync producer, admin, each recording its own error
flag (so every release is attempted even when an earlier one failed). -/
theorem c9_close_release_order (s : PState) (errs : String → Bool)
    (h : s.producersReleased = false) :
    (closeProducer s errs).snd = KResult.ok ∧
    (closeProducer s errs).fst.releaseLog =
      s.releaseLog ++
        [(rClient, errs rClient), (rAsyncProducer, errs rAsyncProducer),
         (rSyncProducer, errs rSyncProducer), (rAdmin, errs rAdmin)] ∧
    ((closeProducer s errs).fst.releaseLog.drop s.releaseLog.length).map Prod.fst =
      closeOrder := by
  have hs : (stop s).producersReleased = false := by
    simp [stop]
    split <;> simp [h]
  have hl : (stop s).releaseLog = s.releaseLog := by
    simp [stop]
    split <;> simp
  refine ⟨?_, ?_, ?_⟩ <;>
    simp [closeProducer, hs, hl, closeOrder]

/-- Witness for C9: a first `Close` from the initial state, with every
underlying resource failing its own close, still returns nil and logs the
four releases in source order. -/
theorem c9_close_release_order_witness :
    (closeProducer initState (fun _ => true)).snd = KResult.ok ∧
    (closeProducer initState (fun _ => true)).fst.releaseLog =
      [] ++ [(rClient, true), (rAsyncProducer, true), (rSyncProducer, true), (rAdmin, true)] ∧
    ((closeProducer initState (fun _ => true)).fst.releaseLog.drop 0).map Prod.fst =
      closeOrder :=
  c9_close_release_order initState (fun _ => true) rfl

/-- A lifecycle call: `stop()` or `Close()` (the latter carrying the results
of the four underlying resource closes). -/
inductive LEvent where
  | stopCall
  | closeCall (errs : String → Bool)

/-- Run a sequence of `stop`/`Close` calls. -/
def lrun (s : PState) : List LEvent → PState
  | [] => s
  | LEvent.stopCall :: es => lrun (stop s) es
  | LEvent.closeCall errs :: es => lrun (closeProducer s errs).fst es

/-- States reachable by lifecycle calls: either nothing released yet and the
log empty, or released with exactly the four ordered entries, and the closing
flag and close channel always move together. -/
def lifeInv (s : PState) : Prop :=
  (s.producersReleased = false ∧ s.releaseLog = [] ∨
     s.producersReleased = true ∧ s.releaseLog.map Prod.fst = closeOrder) ∧
  s.closing = s.closeChClosed

theorem lifeInv_stop (s : PState) (h : lifeInv s) : lifeInv (stop s) := by
  obtain ⟨h1, h2⟩ := h
  unfold stop
  split <;> exact ⟨h1, by simp_all⟩

theorem lifeInv_close (s : PState) (errs : String → Bool) (h : lifeInv s) :
    lifeInv (closeProducer s errs).fst := by
  have hs := lifeInv_stop s h
  obtain ⟨h1, h2⟩ := hs
  by_cases hr : (stop s).producersReleased = true
  · simpa [closeProducer, hr] using ⟨h1, h2⟩
  · rcases h1 with ⟨_, hl⟩ | ⟨hr2, _⟩
    · refine ⟨Or.inr ⟨?_, ?_⟩, ?_⟩ <;>
        simp [closeProducer, hr, hl, closeOrder, h2]
    · exact absurd hr2 hr

theorem lifeInv_lrun (es : List LEvent) (s : PState) (h : lifeInv s) :
    lifeInv (lrun s es) := by
  induction es generalizing s with
  | nil => exact h
  | cons e es ih =>
      cases e with
      | stopCall => exact ih _ (lifeInv_stop s h)
      | closeCall errs => exact ih _ (lifeInv_close s errs h)

/-- Claim C8: `stop` and `Close` are idempotent.  `stop` is a no-op once the
closing flag is set (so the Running-to-Closing transition and the closing of
the signal channel happen exactly once, on the first effective call); across
any sequence of `stop`/`Close` calls starting from the initial state the
release log holds each resource at most once (it is empty or exactly the four
ordered entries); and any `Close` call after the first release returns nil
and performs no further release. -/
theorem c8_stop_close_idempotent :
    (∀ s : PState, stop (stop s) = stop s) ∧
    (∀ s : PState, s.closing = true → stop s = s) ∧
    (∀ s : PState, s.closing = false →
        stop s = { s with closing := true, closeChClosed := true }) ∧
    (∀ es : List LEvent, (lrun initState es).releaseLog = [] ∨
        ((lrun initState es).releaseLog).map Prod.fst = closeOrder) ∧
    (∀ (s : PState) (errs : String → Bool), s.producersReleased = true →
        closeProducer s errs = (stop s, KResult.ok)) := by
  refine ⟨?_, ?_, ?_, ?_, ?_⟩
  · intro s
    unfold stop
    split <;> simp_all
  · intro s h
    simp [stop, h]
  · intro s h
    simp [stop, h]
  · intro es
    have h := lifeInv_lrun es initState ⟨Or.inl ⟨rfl, rfl⟩, rfl⟩
    rcases h.1 with ⟨_, hl⟩ | ⟨_, hl⟩
    · exact Or.inl hl
    · exact Or.inr hl
  · intro s errs h
    have hs : (stop s).producersReleased = true := by
      unfold stop
      split <;> simp [h]
    simp [closeProducer, hs]

/-- Witness for C8: concrete instances — a double `stop`, a second `stop`
after the first, the log after stop-close-close-stop, and a `Close` at an
already-released state. -/
theorem c8_stop_close_idempotent_witness :
    stop (stop initState) = stop initState ∧
    stop closedState = closedState ∧
    ((lrun initState [LEvent.stopCall, LEvent.closeCall (fun _ => false),
        LEvent.closeCall (fun _ => true), LEvent.stopCall]).releaseLog = [] ∨
      ((lrun initState [LEvent.stopCall, LEvent.closeCall (fun _ => false),
        LEvent.closeCall (fun _ => true), LEvent.stopCall]).releaseLog).map Prod.fst =
        closeOrder) ∧
    closeProducer { closedState with producersReleased := true } (fun _ => true) =
      (stop { closedState with producersReleased := true }, KResult.ok) :=
  ⟨c8_stop_close_idempotent.1 initState,
   c8_stop_close_idempotent.2.1 closedState rfl,
   c8_stop_close_idempotent.2.2.2.1 _,
   c8_stop_close_idempotent.2.2.2.2 _ _ rfl⟩

/-- Claim C3: the min.insync.replicas validation fails with the
configuration-invalid error exactly when the applicable value (topic-level
entry when the topic exists and carries it, otherwise the broker-level value,
as resolved by `minInsyncGetter`) is greater than the replication factor; a
broker-config-not-found error during the lookup is tolerated and the
validation passes. -/
theorem c3_validate_min_insync (admin : ClusterAdmin)
    (topics : List (String × TopicDetail)) (topic : String) (rf : Int) :
    (minInsyncGetter admin topics topic = Except.error KError.brokerConfigNotFound →
        validateMinInsyncReplicas admin topics topic rf = Except.ok ()) ∧
    (∀ (v : String) (b : Bool) (m : Int),
        minInsyncGetter admin topics topic = Except.ok (v, b) →
        parseAtoi v = Except.ok m →
        ((∃ f, validateMinInsyncReplicas admin topics topic rf =
            Except.error (KError.invalidConfig f)) ↔ rf < m)) := by
  constructor
  · intro h
    simp [validateMinInsyncReplicas, h]
  · intro v b m hg hp
    simp only [validateMinInsyncReplicas, hg, hp]
    by_cases hlt : rf < m
    · simp [hlt]
    · simp [hlt]

/-- The admin client of the spec's reconciliation scenario for C3: the topic
exists and carries a topic-level `min.insync.replicas = 2`. -/
def adminC3 : ClusterAdmin :=
  { topicsMeta := Except.ok [("t", ⟨3, [(MinInsyncReplicasConfigName, "2")]⟩)],
    brokerConfig := fun _ => Except.error KError.brokerConfigNotFound }

def topicT : String := "t"

def topicsC3 : List (String × TopicDetail) :=
  [("t", ⟨3, [(MinInsyncReplicasConfigName, "2")]⟩)]

/-- Witness for C3: replication factor 1 against topic-level
min.insync.replicas 2 yields the configuration-invalid error. -/
theorem c3_validate_min_insync_witness :
    ∃ f, validateMinInsyncReplicas adminC3 topicsC3 topicT 1 =
      Except.error (KError.invalidConfig f) :=
  ((c3_validate_min_insync adminC3 topicsC3 topicT 1).2 ("2") true 2 rfl rfl).mpr (by decide)

/-- Claim C4: when the topic exists in the fetched metadata, the
min.insync.replicas validation passes, and the topic's effective
max.message.bytes (topic value, else broker value) resolves and parses to
`m`, `AdjustOptions` returns nil with `MaxMessageBytes` lowered to
`min` of the configured value and `m`, and `PartitionNum` set to the topic's
actual partition count. -/
theorem c4_adjust_topic_exists (admin : ClusterAdmin)
    (topics : List (String × TopicDetail)) (topic : String) (info : TopicDetail)
    (options : Options) (str : String) (m : Int)
    (hmeta : admin.topicsMeta = Except.ok topics)
    (hfound : lookupTopic topics topic = some info)
    (hvalid : validateMinInsyncReplicas admin topics topic options.ReplicationFactor =
      Except.ok ())
    (hcfg : getTopicConfig admin info TopicMaxMessageBytesConfigName
      BrokerMessageMaxBytesConfigName = Except.ok str)
    (hparse : parseAtoi str = Except.ok m) :
    AdjustOptions admin options topic =
      Except.ok { options with MaxMessageBytes := min options.MaxMessageBytes m,
                               PartitionNum := info.NumPartitions } := by
  simp only [AdjustOptions, hmeta, hvalid, hfound, hcfg, hparse, Options.SetPartitionNum]
  by_cases hlt : m < options.MaxMessageBytes
  · rw [min_eq_right (le_of_lt hlt)]
    simp [hlt]
  · rw [min_eq_left (le_of_not_lt hlt)]
    simp [hlt]

/-- The admin client of the spec's reconciliation scenario for C4: the topic
exists with `max.message.bytes = 900` and a satisfiable
`min.insync.replicas = 1`, and 5 partitions. -/
def adminC4 : ClusterAdmin :=
  { topicsMeta := Except.ok
      [("t", ⟨5, [(TopicMaxMessageBytesConfigName, "900"),
                  (MinInsyncReplicasConfigName, "1")]⟩)],
    brokerConfig := fun _ => Except.error KError.brokerConfigNotFound }

def infoC4 : TopicDetail :=
  ⟨5, [(TopicMaxMessageBytesConfigName, "900"), (MinInsyncReplicasConfigName, "1")]⟩

def optionsC4 : Options := ⟨1000, 0, 1, false⟩

/-- Witness for C4: topic `max.message.bytes = 900` against configured 1000
yields 900, and the partition count is overridden to the topic's 5. -/
theorem c4_adjust_topic_exists_witness :
    AdjustOptions adminC4 optionsC4 topicT = Except.ok ⟨900, 5, 1, false⟩ := by
  rw [c4_adjust_topic_exists adminC4 [("t", infoC4)] topicT infoC4 optionsC4 ("900") 900
    rfl rfl rfl rfl rfl]
  simp [optionsC4, infoC4]

/-- Claim C5: when the topic is absent from the fetched metadata, the
min.insync.replicas validation passes, and the broker's message.max.bytes
resolves and parses to `m`, `AdjustOptions` returns nil with
`MaxMessageBytes` lowered to `min` of the configured value and `m`, and
`PartitionNum` set to the default 3 when it was 0 (kept otherwise). -/
theorem c5_adjust_topic_missing (admin : ClusterAdmin)
    (topics : List (String × TopicDetail)) (topic : String)
    (options : Options) (str : String) (m : Int)
    (hmeta : admin.topicsMeta = Except.ok topics)
    (hmissing : lookupTopic topics topic = none)
    (hvalid : validateMinInsyncReplicas admin topics topic options.ReplicationFactor =
      Except.ok ())
    (hcfg : admin.brokerConfig BrokerMessageMaxBytesConfigName = Except.ok str)
    (hparse : parseAtoi str = Except.ok m) :
    AdjustOptions admin options topic =
      Except.ok { options with
        MaxMessageBytes := min options.MaxMessageBytes m,
        PartitionNum := if options.PartitionNum = 0 then defaultPartitionNum
                        else options.PartitionNum } := by
  simp only [AdjustOptions, hmeta, hvalid, hmissing, hcfg, hparse]
  by_cases hlt : m < options.MaxMessageBytes
  · rw [min_eq_right (le_of_lt hlt)]
    by_cases hp : options.PartitionNum = 0 <;> simp [hlt, hp]
  · rw [min_eq_left (le_of_not_lt hlt)]
    by_cases hp : options.PartitionNum = 0 <;> simp [hlt, hp]

/-- The admin client of the spec's reconciliation scenario for C5: no topics;
broker `message.max.bytes = 500` and broker `min.insync.replicas = 1`. -/
def adminC5 : ClusterAdmin :=
  { topicsMeta := Except.ok [],
    brokerConfig := fun name =>
      if name = BrokerMessageMaxBytesConfigName then Except.ok ("500")
      else if name = MinInsyncReplicasConfigName then Except.ok ("1")
      else Except.error KError.brokerConfigNotFound }

def optionsC5 : Options := ⟨1000, 0, 1, false⟩

/-- Witness for C5: broker `message.max.bytes = 500` against configured 1000
with unset partition count yields 500 and the default 3 partitions. -/
theorem c5_adjust_topic_missing_witness :
    AdjustOptions adminC5 optionsC5 topicT = Except.ok ⟨500, 3, 1, false⟩ := by
  rw [c5_adjust_topic_missing adminC5 [] topicT optionsC5 ("500") 500
    rfl rfl rfl rfl rfl]
  simp [optionsC5, defaultPartitionNum]

theorem prun_append (es fs : List PEvent) (s : PState) :
    prun s (es ++ fs) = (prun s es).bind (fun s1 => prun s1 fs) := by
  induction es generalizing s with
  | nil => rfl
  | cons e es ih =>
      show prun s (e :: (es ++ fs)) = _
      cases he : pstep s e with
      | none => simp [prun, he]
      | some t => simp [prun, he, ih t]

/-- Counting invariant of the producer: acknowledgments never outnumber
handoffs, handoffs never outnumber increments, and `inflight` is exactly
increments minus acknowledgments. -/
def baseInv (s : PState) : Prop :=
  s.acked ≤ s.handedOff ∧ s.handedOff ≤ s.incremented ∧
  s.inflight = (s.incremented : Int) - (s.acked : Int)

theorem baseInv_init : baseInv initState := by
  simp [baseInv, initState]

theorem baseInv_step (s s1 : PState) (e : PEvent)
    (h : baseInv s) (hs : pstep s e = some s1) : baseInv s1 := by
  obtain ⟨h1, h2, h3⟩ := h
  cases e with
  | sendE pick =>
      simp only [pstep] at hs
      split at hs
      · exact absurd hs (by simp)
      · injection hs with hs
        subst hs
        simp only [asyncSendMessage]
        by_cases hc : s.closing = true
        · simpa [hc, baseInv] using ⟨h1, h2, h3⟩
        · cases pick <;> simp [hc, baseInv] <;> omega
  | ackE =>
      simp only [pstep] at hs
      split at hs
      · rename_i hg
        injection hs with hs
        subst hs
        simp only [ackConsume]
        split <;> simp [baseInv] <;> omega
      · exact absurd hs (by simp)
  | flushCallE =>
      simp only [pstep] at hs
      split at hs
      · exact absurd hs (by simp)
      · injection hs with hs
        subst hs
        simp only [flushCheck]
        split <;> simpa [baseInv] using ⟨h1, h2, h3⟩
  | flushWakeE w =>
      simp only [pstep] at hs
      split at hs
      · injection hs with hs
        subst hs
        simpa [baseInv] using ⟨h1, h2, h3⟩
      · exact absurd hs (by simp)
  | stopE =>
      simp only [pstep] at hs
      injection hs with hs
      subst hs
      simp only [stop]
      split <;> simpa [baseInv] using ⟨h1, h2, h3⟩

theorem baseInv_prun (es : List PEvent) (s s1 : PState)
    (h : baseInv s) (hp : prun s es = some s1) : baseInv s1 := by
  induction es generalizing s with
  | nil =>
      unfold prun at hp
      injection hp with hp
      subst hp
      exact h
  | cons e es ih =>
      unfold prun at hp
      cases he : pstep s e with
      | none => rw [he] at hp; exact absurd hp (by simp)
      | some t => rw [he] at hp; exact ih t (baseInv_step s t e h he) hp

/-- Waiter invariant: while a registered flush has been signalled
(`doneSig`), every increment has been acknowledged. -/
def flushInv (s : PState) : Prop :=
  s.flushWaiting = true → s.doneSig = true → s.acked = s.incremented

def pInv (s : PState) : Prop := baseInv s ∧ flushInv s

theorem pInv_step (s s1 : PState) (e : PEvent)
    (h : pInv s) (hser : e.isSend = true → s.flushWaiting = false)
    (hs : pstep s e = some s1) : pInv s1 := by
  obtain ⟨hb, hf⟩ := h
  refine ⟨baseInv_step s s1 e hb hs, ?_⟩
  obtain ⟨h1, h2, h3⟩ := hb
  cases e with
  | sendE pick =>
      have hw : s.flushWaiting = false := hser rfl
      simp only [pstep] at hs
      split at hs
      · exact absurd hs (by simp)
      · injection hs with hs
        subst hs
        simp only [asyncSendMessage]
        by_cases hc : s.closing = true
        · simpa [hc, flushInv] using hf
        · cases pick <;> simp [hc, flushInv, hw]
  | ackE =>
      simp only [pstep] at hs
      split at hs
      · rename_i hg
        injection hs with hs
        subst hs
        simp only [ackConsume]
        split
        · rename_i hz
          unfold flushInv
          intro _ _
          show s.acked + 1 = s.incremented
          omega
        · rename_i hz
          unfold flushInv
          intro hw hd
          show s.acked + 1 = s.incremented
          have hw2 : s.flushWaiting = true := hw
          have hd2 : s.doneSig = true := hd
          have := hf hw2 hd2
          omega
      · exact absurd hs (by simp)
  | flushCallE =>
      simp only [pstep] at hs
      split at hs
      · exact absurd hs (by simp)
      · injection hs with hs
        subst hs
        simp only [flushCheck]
        split
        · exact hf
        · unfold flushInv
          intro _ hd
          exact absurd hd (by simp)
  | flushWakeE w =>
      simp only [pstep] at hs
      split at hs
      · injection hs with hs
        subst hs
        unfold flushInv
        intro hw _
        exact absurd hw (by simp)
      · exact absurd hs (by simp)
  | stopE =>
      simp only [pstep] at hs
      injection hs with hs
      subst hs
      simp only [stop]
      split
      · exact hf
      · unfold flushInv
        intro hw hd
        exact hf hw hd

theorem pInv_prun (es : List PEvent) (s s1 : PState)
    (h : pInv s) (hser : serialTrace s es = true) (hp : prun s es = some s1) : pInv s1 := by
  induction es generalizing s with
  | nil =>
      unfold prun at hp
      injection hp with hp
      subst hp
      exact h
  | cons e es ih =>
      unfold prun at hp
      unfold serialTrace at hser
      cases he : pstep s e with
      | none => rw [he] at hp; exact absurd hp (by simp)
      | some t =>
          rw [he] at hp hser
          simp only [Bool.and_eq_true] at hser
          have hsend : e.isSend = true → s.flushWaiting = false := by
            intro hi
            have hc1 := hser.1
            simp [hi] at hc1
            exact hc1
          exact ih t (pInv_step s t e ⟨h.1, h.2⟩ hsend he) hser.2 hp

/-- Claim C2: over every event sequence from the initial state the inflight
counter stays non-negative; a `Flush` that returns nil immediately does so at
a state with `inflight = 0`; and over serialized traces (the documented
Send/Flush contract) a blocked `Flush` woken through the done channel also
finds `inflight = 0`. -/
theorem c2_inflight_invariant :
    (∀ (es : List PEvent) (s : PState), prun initState es = some s → 0 ≤ s.inflight) ∧
    (∀ s : PState, (flushCheck s).fst = FlushCheck.immediate →
        (flushCheck s).snd.inflight = 0) ∧
    (∀ (es : List PEvent) (s s1 : PState),
        prun initState es = some s → serialTrace initState es = true →
        pstep s (PEvent.flushWakeE FlushWake.done) = some s1 → s1.inflight = 0) := by
  refine ⟨?_, ?_, ?_⟩
  · intro es s hp
    obtain ⟨h1, h2, h3⟩ := baseInv_prun es initState s baseInv_init hp
    omega
  · intro s h
    by_cases hz : s.inflight = 0
    · simp [flushCheck, hz]
    · simp [flushCheck, hz] at h
  · intro es s s1 hp hser hw
    have hI : pInv s := pInv_prun es initState s ⟨baseInv_init, by simp [flushInv, initState]⟩ hser hp
    obtain ⟨⟨h1, h2, h3⟩, hf⟩ := hI
    simp only [pstep] at hw
    split at hw
    · rename_i hg
      have hd : s.doneSig = true := hg.2.1 trivial
      have := hf hg.1 hd
      injection hw with hw
      subst hw
      show s.inflight = 0
      omega
    · exact absurd hw (by simp)

/-- The event trace behind the concrete C1/C2 witnesses: one async send, a
flush that registers, one acknowledgment. -/
def wTrace : List PEvent :=
  [PEvent.sendE SendPick.handoff, PEvent.flushCallE, PEvent.ackE]

/-- The state after `wTrace`: nothing inflight, the waiter already notified. -/
def wState : PState :=
  { inflight := 0, flushDone := false, doneSig := true, closing := false,
    closeChClosed := false, flushWaiting := true, producersReleased := false,
    releaseLog := [], incremented := 1, handedOff := 1, acked := 1, syncSends := 0 }

/-- `wState` after the flush wakes through the done channel. -/
def wStateDone : PState :=
  { wState with flushWaiting := false, doneSig := false }

/-- Witness for C2 at the concrete trace `wTrace`. -/
theorem c2_inflight_invariant_witness :
    (0 : Int) ≤ wState.inflight ∧
    (flushCheck initState).snd.inflight = 0 ∧
    wStateDone.inflight = 0 :=
  ⟨c2_inflight_invariant.1 wTrace wState (by decide),
   c2_inflight_invariant.2.1 initState (by decide),
   c2_inflight_invariant.2.2 wTrace wState wStateDone (by decide) (by decide) (by decide)⟩

/-- The producer state after `n` successful async submissions from the
initial state: `n` inflight, `n` handed off, nothing acknowledged. -/
def sentState (n : Nat) : PState :=
  { initState with inflight := (n : Int), incremented := n, handedOff := n }

theorem prun_sends (n : Nat) :
    prun initState (List.replicate n (PEvent.sendE SendPick.handoff)) =
      some (sentState n) := by
  induction n with
  | zero => decide
  | succ n ih =>
      rw [List.replicate_succ', prun_append, ih]
      show prun (sentState n) [PEvent.sendE SendPick.handoff] = some (sentState (n + 1))
      have hstep : pstep (sentState n) (PEvent.sendE SendPick.handoff) =
          some (sentState (n + 1)) := by
        simp only [pstep, asyncSendMessage, sentState, initState]
        norm_num
        exact fun h => SendPick.noConfusion h
      simp [prun, hstep]

/-- Trace invariant for claim C1: after `N` submissions and a registered
flush, the counters stay pinned to `N` and the done signal can only have
fired once everything is acknowledged. -/
def c1Inv (N : Nat) (s : PState) : Prop :=
  s.incremented = N ∧ s.handedOff = N ∧
  s.inflight = (N : Int) - (s.acked : Int) ∧ s.acked ≤ N ∧
  (s.doneSig = true → s.acked = N)

theorem c1Inv_mid (N : Nat) (mid : List PEvent) (s s1 : PState)
    (hmid : ∀ e ∈ mid, e = PEvent.ackE ∨ e = PEvent.stopE)
    (h : c1Inv N s) (hp : prun s mid = some s1) :
    c1Inv N s1 ∧ s1.acked = s.acked + countAck mid := by
  induction mid generalizing s with
  | nil =>
      unfold prun at hp
      injection hp with hp
      subst hp
      simp [countAck, h]
  | cons e es ih =>
      obtain ⟨h1, h2, h3, h4, h5⟩ := h
      unfold prun at hp
      rcases hmid e (List.mem_cons_self e es) with he | he <;> subst he
      · by_cases hlt : s.acked < s.handedOff
        · rw [show pstep s PEvent.ackE = some (ackConsume s) by simp [pstep, hlt]] at hp
          have hnext : c1Inv N (ackConsume s) := by
            simp only [ackConsume]
            split
            · rename_i hz
              unfold c1Inv
              dsimp only
              refine ⟨h1, h2, by omega, by omega, fun _ => by omega⟩
            · rename_i hz
              unfold c1Inv
              dsimp only
              refine ⟨h1, h2, by omega, by omega, ?_⟩
              intro hd
              have := h5 hd
              omega
          have hacked : (ackConsume s).acked = s.acked + 1 := by
            simp only [ackConsume]
            split <;> rfl
          obtain ⟨hi, ha⟩ := ih (ackConsume s)
            (fun e hm => hmid e (List.mem_cons_of_mem _ hm)) hnext hp
          refine ⟨hi, ?_⟩
          rw [ha, hacked]
          simp [countAck, List.countP_cons]
          omega
        · rw [show pstep s PEvent.ackE = none by simp [pstep, hlt]] at hp
          exact absurd hp (by simp)
      · rw [show pstep s PEvent.stopE = some (stop s) from rfl] at hp
        have hnext : c1Inv N (stop s) := by
          simp only [stop]
          split
          · exact ⟨h1, h2, h3, h4, h5⟩
          · exact ⟨h1, h2, h3, h4, h5⟩
        have hacked : (stop s).acked = s.acked := by
          simp only [stop]
          split <;> rfl
        obtain ⟨hi, ha⟩ := ih (stop s)
          (fun e hm => hmid e (List.mem_cons_of_mem _ hm)) hnext hp
        refine ⟨hi, ?_⟩
        rw [ha, hacked]
        simp [countAck, List.countP_cons]

/-- Claim C1: in any serialized execution that submits `N` messages through
`AsyncSendMessage` and then calls `Flush`, a `Flush` that returns nil via the
done channel has seen the run loop consume exactly `N` acknowledgments — all
of them, and never fewer; moreover for `N ≥ 1` the `Flush` call does not
return immediately. -/
theorem c1_flush_after_all_acks :
    (∀ (N : Nat) (mid : List PEvent) (s s1 : PState),
        (∀ e ∈ mid, e = PEvent.ackE ∨ e = PEvent.stopE) →
        prun initState (List.replicate N (PEvent.sendE SendPick.handoff) ++
          PEvent.flushCallE :: mid) = some s →
        pstep s (PEvent.flushWakeE FlushWake.done) = some s1 →
        countAck mid = N) ∧
    (∀ N : Nat, 1 ≤ N → (flushCheck (sentState N)).fst = FlushCheck.registered) := by
  constructor
  · intro N mid s s1 hmid hp hw
    rw [prun_append, prun_sends N] at hp
    have hnw : (sentState N).flushWaiting = false := rfl
    rw [show (Option.some (sentState N)).bind
          (fun s1 => prun s1 (PEvent.flushCallE :: mid)) =
        prun (sentState N) (PEvent.flushCallE :: mid) from rfl] at hp
    unfold prun at hp
    rw [show pstep (sentState N) PEvent.flushCallE =
          some (flushCheck (sentState N)).snd by simp [pstep, hnw]] at hp
    have hstart : c1Inv N (flushCheck (sentState N)).snd ∧
        (flushCheck (sentState N)).snd.acked = 0 := by
      by_cases hz : (N : Int) = 0
      · have hN : N = 0 := by omega
        subst hN
        exact ⟨⟨rfl, rfl, rfl, Nat.le_refl 0, fun h => Bool.noConfusion h⟩, rfl⟩
      · have hni : (sentState N).inflight ≠ 0 := hz
        have hfc : (flushCheck (sentState N)).snd =
            { sentState N with flushDone := true, doneSig := false, flushWaiting := true } := by
          simp [flushCheck, hni]
        rw [hfc]
        refine ⟨⟨rfl, rfl, ?_, Nat.zero_le N, fun h => Bool.noConfusion h⟩, rfl⟩
        show (N : Int) = (N : Int) - ((0 : Nat) : Int)
        omega
    obtain ⟨hI, ha⟩ := c1Inv_mid N mid (flushCheck (sentState N)).snd s hmid hstart.1 hp
    rw [hstart.2] at ha
    simp only [pstep] at hw
    split at hw
    · rename_i hg
      have hd : s.doneSig = true := hg.2.1 trivial
      have := hI.2.2.2.2 hd
      omega
    · exact absurd hw (by simp)
  · intro N hN
    have : (sentState N).inflight ≠ 0 := by
      show ¬((N : Nat) : Int) = 0
      omega
    simp [flushCheck, this]

/-- Witness for C1: one submission, a registering flush, one acknowledgment,
then the flush wakes on the done channel; the acknowledgment count is 1. -/
theorem c1_flush_after_all_acks_witness :
    countAck [PEvent.ackE] = 1 ∧
    (flushCheck (sentState 1)).fst = FlushCheck.registered :=
  ⟨c1_flush_after_all_acks.1 1 [PEvent.ackE] wState wStateDone
      (by decide) (by decide) (by decide),
   c1_flush_after_all_acks.2 1 (by decide)⟩

end Tiflow
